import Mathlib

/-!
# Verification of the Tissaia geometry-and-pixel pipeline

Shallow embedding of the deterministic pipeline from
`server/src/handlers.rs`, `server/src/ai.rs` and `src-tauri/src/commands.rs`:
bounding-box overlap reconciliation (`crop_photos`), rotation correction,
dark-edge trimming (`auto_trim_dark_edges`), detector-response parsing
(`parse_detection_response`), manual rotation (`rotate_image`), the local
filter chain (`apply_local_filters`) and the outpaint early return
(`outpaint_photo`).

Machine integers are modelled as `Nat` with explicit `% 2^32` where the Rust
code performs `u32` arithmetic that may wrap in release builds;
`saturating_sub` is Rust saturating subtraction, which coincides with
truncated `Nat` subtraction.
-/

namespace Tissaia

/-- `2^32`, the modulus of Rust `u32` arithmetic. -/
def U32 : Nat := 4294967296

/-- Wrapping `u32` addition result. -/
def wrap32 (n : Nat) : Nat := n % U32

/-- The geometric fields of `models::BoundingBox` (`x, y, width, height : u32`),
in the detector's normalized 0–1000 coordinate space.  The non-geometric
fields (`confidence`, `label`, `rotation_angle`, `contour`, `needs_outpaint`)
play no role in the overlap-reconciliation pass and are modelled separately
where a claim needs them. -/
structure BBox where
  x : Nat
  y : Nat
  width : Nat
  height : Nat
deriving DecidableEq, Repr

/-- Every field of a `u32`-backed box is below `2^32`.  This is a type
invariant of the Rust struct, not an extra assumption. -/
def wf32 (b : BBox) : Prop :=
  b.x < U32 ∧ b.y < U32 ∧ b.width < U32 ∧ b.height < U32

instance (b : BBox) : Decidable (wf32 b) := by unfold wf32; infer_instance

/-- `a.x + a.width` computed in `u32` (wraps on overflow): the box's right
edge as the Rust code sees it. -/
def rightE (b : BBox) : Nat := wrap32 (b.x + b.width)

/-- `a.y + a.height` computed in `u32`. -/
def bottomE (b : BBox) : Nat := wrap32 (b.y + b.height)

/-- `(a_right.min(b_right) as i64 - a.x.max(b.x) as i64).max(0)` from
`crop_photos` (handlers.rs:680, commands.rs:392). -/
def hOverlap (a b : BBox) : Int :=
  max ((min (rightE a) (rightE b) : Int) - (max a.x b.x : Int)) 0

/-- Vertical analogue of `hOverlap` (handlers.rs:681). -/
def vOverlap (a b : BBox) : Int :=
  max ((min (bottomE a) (bottomE b) : Int) - (max a.y b.y : Int)) 0

/-- One iteration of the overlap-fix body of `crop_photos`
(handlers.rs:683–708, commands.rs:395–423) on the pair `(a, b)` =
(`fixed_boxes[i]`, `fixed_boxes[j]`): if both overlaps are positive, shrink
along the axis with the smaller overlap by `overlap/2 + 1`, advancing the
origin of whichever box lies further along that axis.  `+` on `x`/`y` is
`u32` addition (wraps), `saturating_sub` is `Nat` subtraction. -/
def fixPair (a b : BBox) : BBox × BBox :=
  if 0 < hOverlap a b ∧ 0 < vOverlap a b then
    let ov : Int := min (hOverlap a b) (vOverlap a b)
    let s : Nat := ov.toNat / 2 + 1
    if hOverlap a b ≤ vOverlap a b then
      if a.x < b.x then
        ({ a with width := a.width - s },
         { b with x := wrap32 (b.x + s), width := b.width - s })
      else
        ({ a with x := wrap32 (a.x + s), width := a.width - s },
         { b with width := b.width - s })
    else
      if a.y < b.y then
        ({ a with height := a.height - s },
         { b with y := wrap32 (b.y + s), height := b.height - s })
      else
        ({ a with y := wrap32 (a.y + s), height := a.height - s },
         { b with height := b.height - s })
  else (a, b)

/-- Apply `fixPair` in place at positions `p.1 < p.2` of the vector of boxes;
reads happen before writes, and the two positions are distinct, so the
in-place Rust mutation equals this functional update. -/
def stepPair (bs : List BBox) (p : Nat × Nat) : List BBox :=
  if h : p.1 < bs.length ∧ p.2 < bs.length then
    let ab := fixPair (bs.get ⟨p.1, h.1⟩) (bs.get ⟨p.2, h.2⟩)
    (bs.set p.1 ab.1).set p.2 ab.2
  else bs

/-- The pairs `(i, j)` with `0 ≤ i < j < n` in the order visited by
`for i in 0..n { for j in (i+1)..n { … } }`. -/
def pairList (n : Nat) : List (Nat × Nat) :=
  (List.range n).flatMap fun i => (List.range' (i + 1) (n - (i + 1))).map (fun j => (i, j))

/-- The whole BoxReconciler pass of `crop_photos` (handlers.rs:670–710): a
single pass over all unordered index pairs in lexicographic order. -/
def reconcile (bs : List BBox) : List BBox :=
  (pairList bs.length).foldl stepPair bs

/-- Box at index `i`, defaulting to the zero box (used only out of range). -/
def boxAt (bs : List BBox) (i : Nat) : BBox := bs.getD i ⟨0, 0, 0, 0⟩

-- sanity checks (spec §8 example and the nested counterexample)
example : reconcile [⟨0,0,500,500⟩, ⟨400,0,500,500⟩] =
    [⟨0,0,449,500⟩, ⟨451,0,449,500⟩] := by decide

example :
    0 < hOverlap (boxAt (reconcile [⟨0,0,20,100⟩, ⟨10,0,4,100⟩]) 0)
      (boxAt (reconcile [⟨0,0,20,100⟩, ⟨10,0,4,100⟩]) 1) := by decide

/-- The current box sits inside the original box's footprint (exact,
unwrapped field arithmetic): the content of claim C10. -/
def shrinkLe (c o : BBox) : Prop :=
  o.x ≤ c.x ∧ c.x + c.width ≤ o.x + o.width ∧
  o.y ≤ c.y ∧ c.y + c.height ≤ o.y + o.height

/-- The `u32`-computed edges of the current box are inside those of the
original: the quantity the overlap test actually reads. -/
def edgeLe (c o : BBox) : Prop :=
  o.x ≤ c.x ∧ rightE c ≤ rightE o ∧ o.y ≤ c.y ∧ bottomE c ≤ bottomE o

/-- Evolution relation maintained for each box through the pass. -/
def evolves (c o : BBox) : Prop := wf32 c ∧ shrinkLe c o ∧ edgeLe c o

theorem evolves_refl {b : BBox} (h : wf32 b) : evolves b b := by
  exact ⟨h, ⟨le_refl _, le_refl _, le_refl _, le_refl _⟩,
    ⟨le_refl _, le_refl _, le_refl _, le_refl _⟩⟩

theorem evolves_trans {c m o : BBox} (h1 : evolves c m) (h2 : evolves m o) :
    evolves c o := by
  obtain ⟨hw1, hs1, he1⟩ := h1
  obtain ⟨hw2, hs2, he2⟩ := h2
  refine ⟨hw1, ?_, ?_⟩
  · unfold shrinkLe at *; omega
  · unfold edgeLe at *; omega

theorem hOverlap_pos_iff {a b : BBox} :
    0 < hOverlap a b ↔ max a.x b.x < min (rightE a) (rightE b) := by
  unfold hOverlap; omega

theorem vOverlap_pos_iff {a b : BBox} :
    0 < vOverlap a b ↔ max a.y b.y < min (bottomE a) (bottomE b) := by
  unfold vOverlap; omega

/-- If a `u32` right edge is strictly beyond the origin, the addition did not
wrap. -/
theorem unwrap_of_lt {x w : Nat} (hw : w < U32) (h : x < wrap32 (x + w)) :
    x + w < U32 ∧ wrap32 (x + w) = x + w := by
  unfold wrap32 U32 at *
  omega

theorem wrap32_eq_of_lt {n : Nat} (h : n < U32) : wrap32 n = n := by
  unfold wrap32 at *; exact Nat.mod_eq_of_lt h

set_option maxHeartbeats 1600000 in
/-- Core case analysis: `fixPair` only ever shrinks each box inside its own
footprint, keeps the boxes `u32`-valid, and never moves a `u32` edge
outward. -/
theorem fixPair_evolves {a b : BBox} (ha : wf32 a) (hb : wf32 b) :
    evolves (fixPair a b).1 a ∧ evolves (fixPair a b).2 b := by
  simp only [fixPair]
  split_ifs with hg haxis hxlt hylt <;>
    unfold evolves wf32 shrinkLe edgeLe hOverlap vOverlap rightE bottomE
      wrap32 U32 at * <;>
    dsimp only at * <;>
    omega

theorem boxAt_set_self {bs : List BBox} {i : Nat} {b : BBox}
    (h : i < bs.length) : boxAt (bs.set i b) i = b := by
  unfold boxAt
  rw [List.getD_eq_getElem?_getD, List.getElem?_set_self (by omega)]
  rfl

theorem boxAt_set_ne {bs : List BBox} {i j : Nat} {b : BBox}
    (h : i ≠ j) : boxAt (bs.set i b) j = boxAt bs j := by
  unfold boxAt
  rw [List.getD_eq_getElem?_getD, List.getElem?_set_ne h,
    List.getD_eq_getElem?_getD]

/-- Every box of the list is `u32`-valid. -/
def allWf (bs : List BBox) : Prop := ∀ k, k < bs.length → wf32 (boxAt bs k)

theorem stepPair_length (bs : List BBox) (p : Nat × Nat) :
    (stepPair bs p).length = bs.length := by
  unfold stepPair
  split <;> simp

theorem boxAt_eq_getElem {bs : List BBox} {k : Nat} (h : k < bs.length) :
    boxAt bs k = bs.get ⟨k, h⟩ := by
  unfold boxAt
  rw [List.getD_eq_getElem?_getD, List.getElem?_eq_getElem h]
  rfl

/-- Each `stepPair` step makes every box of the list evolve (shrink) relative
to its previous value. -/
theorem stepPair_evolves {bs : List BBox} (hwf : allWf bs) (p : Nat × Nat)
    {k : Nat} (hk : k < bs.length) :
    evolves (boxAt (stepPair bs p) k) (boxAt bs k) := by
  unfold stepPair
  split
  case isTrue h =>
    have ha : wf32 (bs.get ⟨p.1, h.1⟩) := by
      rw [← boxAt_eq_getElem h.1]; exact hwf _ h.1
    have hb : wf32 (bs.get ⟨p.2, h.2⟩) := by
      rw [← boxAt_eq_getElem h.2]; exact hwf _ h.2
    have hfix := fixPair_evolves ha hb
    by_cases h2 : k = p.2
    · subst h2
      rw [boxAt_set_self (by simpa using h.2), boxAt_eq_getElem h.2]
      exact hfix.2
    · rw [boxAt_set_ne (Ne.symm h2)]
      by_cases h1 : k = p.1
      · subst h1
        rw [boxAt_set_self h.1, boxAt_eq_getElem h.1]
        exact hfix.1
      · rw [boxAt_set_ne (Ne.symm h1)]
        exact evolves_refl (hwf _ hk)
  case isFalse =>
    exact evolves_refl (hwf _ hk)

/-- Any sequence of `stepPair` steps preserves length and makes every box
evolve relative to the input. -/
theorem foldl_stepPair_evolves (ps : List (Nat × Nat)) :
    ∀ bs : List BBox, allWf bs →
      (ps.foldl stepPair bs).length = bs.length ∧
      ∀ k, k < bs.length →
        evolves (boxAt (ps.foldl stepPair bs) k) (boxAt bs k) := by
  induction ps with
  | nil => exact fun bs hwf => ⟨rfl, fun k hk => evolves_refl (hwf k hk)⟩
  | cons p ps ih =>
    intro bs hwf
    have hstep : ∀ k, k < bs.length →
        evolves (boxAt (stepPair bs p) k) (boxAt bs k) :=
      fun k hk => stepPair_evolves hwf p hk
    have hwf' : allWf (stepPair bs p) := by
      intro k hk
      rw [stepPair_length] at hk
      exact (hstep k hk).1
    obtain ⟨hlen, hrec⟩ := ih (stepPair bs p) hwf'
    refine ⟨by simpa [stepPair_length] using hlen, fun k hk => ?_⟩
    exact evolves_trans (hrec k (by rwa [stepPair_length])) (hstep k hk)

/-- The reconciliation pass preserves the list length. -/
theorem reconcile_length (bs : List BBox) (hwf : allWf bs) :
    (reconcile bs).length = bs.length :=
  (foldl_stepPair_evolves (pairList bs.length) bs hwf).1

/-- Every output box of the pass evolves from (shrinks inside) the input box
at the same index. -/
theorem reconcile_evolves {bs : List BBox} (hwf : allWf bs)
    {k : Nat} (hk : k < bs.length) :
    evolves (boxAt (reconcile bs) k) (boxAt bs k) :=
  (foldl_stepPair_evolves (pairList bs.length) bs hwf).2 k hk

/-- Overlap, as the code computes it, is monotone under box evolution. -/
theorem hOverlap_mono {a' a b' b : BBox} (ha : evolves a' a)
    (hb : evolves b' b) : hOverlap a' b' ≤ hOverlap a b := by
  obtain ⟨-, -, hea⟩ := ha
  obtain ⟨-, -, heb⟩ := hb
  unfold edgeLe at hea heb
  unfold hOverlap
  omega

theorem vOverlap_mono {a' a b' b : BBox} (ha : evolves a' a)
    (hb : evolves b' b) : vOverlap a' b' ≤ vOverlap a b := by
  obtain ⟨-, -, hea⟩ := ha
  obtain ⟨-, -, heb⟩ := hb
  unfold edgeLe at hea heb
  unfold vOverlap
  omega

theorem wf32_of_mem {bs : List BBox} (hwf : ∀ b ∈ bs, wf32 b) : allWf bs := by
  intro k hk
  rw [boxAt_eq_getElem hk]
  exact hwf _ (List.getElem_mem hk)

/-- C10: every adjustment of the BoxReconciler pass only shrinks a box within
its original footprint: origins never decrease and far edges never increase,
so no box grows or moves outside the region it originally covered.
(The `wf32` hypothesis only restates that the Rust fields are `u32`.) -/
theorem c10_reconcile_shrinks_within_footprint (bs : List BBox)
    (hwf : ∀ b ∈ bs, wf32 b) (i : Nat) (hi : i < bs.length) :
    (boxAt bs i).x ≤ (boxAt (reconcile bs) i).x ∧
    (boxAt (reconcile bs) i).x + (boxAt (reconcile bs) i).width ≤
      (boxAt bs i).x + (boxAt bs i).width ∧
    (boxAt bs i).y ≤ (boxAt (reconcile bs) i).y ∧
    (boxAt (reconcile bs) i).y + (boxAt (reconcile bs) i).height ≤
      (boxAt bs i).y + (boxAt bs i).height := by
  have h := (reconcile_evolves (wf32_of_mem hwf) hi).2.1
  unfold shrinkLe at h
  exact h

/-- Witness: C10 applied to the spec §8 two-box example. -/
theorem c10_reconcile_shrinks_within_footprint_witness :
    (boxAt [(⟨0,0,500,500⟩ : BBox), ⟨400,0,500,500⟩] 0).x ≤
      (boxAt (reconcile [⟨0,0,500,500⟩, ⟨400,0,500,500⟩]) 0).x ∧
    (boxAt (reconcile [⟨0,0,500,500⟩, ⟨400,0,500,500⟩]) 0).x +
        (boxAt (reconcile [⟨0,0,500,500⟩, ⟨400,0,500,500⟩]) 0).width ≤
      (boxAt [(⟨0,0,500,500⟩ : BBox), ⟨400,0,500,500⟩] 0).x +
        (boxAt [(⟨0,0,500,500⟩ : BBox), ⟨400,0,500,500⟩] 0).width ∧
    (boxAt [(⟨0,0,500,500⟩ : BBox), ⟨400,0,500,500⟩] 0).y ≤
      (boxAt (reconcile [⟨0,0,500,500⟩, ⟨400,0,500,500⟩]) 0).y ∧
    (boxAt (reconcile [⟨0,0,500,500⟩, ⟨400,0,500,500⟩]) 0).y +
        (boxAt (reconcile [⟨0,0,500,500⟩, ⟨400,0,500,500⟩]) 0).height ≤
      (boxAt [(⟨0,0,500,500⟩ : BBox), ⟨400,0,500,500⟩] 0).y +
        (boxAt [(⟨0,0,500,500⟩ : BBox), ⟨400,0,500,500⟩] 0).height :=
  c10_reconcile_shrinks_within_footprint [⟨0,0,500,500⟩, ⟨400,0,500,500⟩]
    (by decide) 0 (by decide)

/-- C1 counterexample: after the single reconciliation pass on the two boxes
`(x=0,y=0,w=20,h=100)` and `(x=10,y=0,w=4,h=100)` — the second nested in the
first along the shrink axis — the output pair still has positive horizontal
AND vertical overlap, refuting the claimed universal no-overlap guarantee. -/
theorem c1_no_overlap_counterexample :
    0 < hOverlap (boxAt (reconcile [⟨0,0,20,100⟩, ⟨10,0,4,100⟩]) 0)
        (boxAt (reconcile [⟨0,0,20,100⟩, ⟨10,0,4,100⟩]) 1) ∧
    0 < vOverlap (boxAt (reconcile [⟨0,0,20,100⟩, ⟨10,0,4,100⟩]) 0)
        (boxAt (reconcile [⟨0,0,20,100⟩, ⟨10,0,4,100⟩]) 1) ∧
    reconcile [⟨0,0,20,100⟩, ⟨10,0,4,100⟩] =
      [⟨0,0,17,100⟩, ⟨13,0,1,100⟩] := by decide

/-- C1 (amended): the pass preserves the list length (same index in, same
index out), and every pair of boxes already satisfying
`h_overlap ≤ 0 ∨ v_overlap ≤ 0` in the input still satisfies it in the
output; but a pair with positive-area overlap may keep positive-area overlap
after the single pass (see the counterexample). -/
theorem c1_reconcile_preserves_disjointness (bs : List BBox)
    (hwf : ∀ b ∈ bs, wf32 b) :
    (reconcile bs).length = bs.length ∧
    ∀ i j, i < bs.length → j < bs.length →
      (hOverlap (boxAt bs i) (boxAt bs j) ≤ 0 ∨
        vOverlap (boxAt bs i) (boxAt bs j) ≤ 0) →
      (hOverlap (boxAt (reconcile bs) i) (boxAt (reconcile bs) j) ≤ 0 ∨
        vOverlap (boxAt (reconcile bs) i) (boxAt (reconcile bs) j) ≤ 0) := by
  have hwf' := wf32_of_mem hwf
  refine ⟨reconcile_length bs hwf', fun i j hi hj hdisj => ?_⟩
  rcases hdisj with h | h
  · exact Or.inl (le_trans
      (hOverlap_mono (reconcile_evolves hwf' hi) (reconcile_evolves hwf' hj)) h)
  · exact Or.inr (le_trans
      (vOverlap_mono (reconcile_evolves hwf' hi) (reconcile_evolves hwf' hj)) h)

/-- Witness: C1 (amended) applied to two already-disjoint boxes. -/
theorem c1_reconcile_preserves_disjointness_witness :
    (reconcile [(⟨0,0,100,100⟩ : BBox), ⟨500,0,100,100⟩]).length =
      ([(⟨0,0,100,100⟩ : BBox), ⟨500,0,100,100⟩] : List BBox).length ∧
    (hOverlap (boxAt (reconcile [(⟨0,0,100,100⟩ : BBox), ⟨500,0,100,100⟩]) 0)
        (boxAt (reconcile [(⟨0,0,100,100⟩ : BBox), ⟨500,0,100,100⟩]) 1) ≤ 0 ∨
      vOverlap (boxAt (reconcile [(⟨0,0,100,100⟩ : BBox), ⟨500,0,100,100⟩]) 0)
        (boxAt (reconcile [(⟨0,0,100,100⟩ : BBox), ⟨500,0,100,100⟩]) 1) ≤ 0) :=
  ⟨(c1_reconcile_preserves_disjointness _ (by decide)).1,
    (c1_reconcile_preserves_disjointness [⟨0,0,100,100⟩, ⟨500,0,100,100⟩]
      (by decide)).2 0 1 (by decide) (by decide) (by decide)⟩

/-- C2 counterexample: both input boxes satisfy `width,height ≥ 1`,
`x+width ≤ 1000`, `y+height ≤ 1000`, but after the overlap correction the
second box has `width = 0`: the `width ≥ 1` part of the claimed invariant is
not preserved (a width-1 box nested in a wider one is shrunk to width 0). -/
theorem c2_invariant_counterexample :
    (∀ b ∈ [(⟨0,0,100,100⟩ : BBox), ⟨10,0,1,100⟩],
      1 ≤ b.width ∧ 1 ≤ b.height ∧ b.x + b.width ≤ 1000 ∧
        b.y + b.height ≤ 1000) ∧
    ¬ (∀ b ∈ reconcile [⟨0,0,100,100⟩, ⟨10,0,1,100⟩],
      1 ≤ b.width ∧ 1 ≤ b.height ∧ b.x + b.width ≤ 1000 ∧
        b.y + b.height ≤ 1000) ∧
    (boxAt (reconcile [⟨0,0,100,100⟩, ⟨10,0,1,100⟩]) 1).width = 0 := by
  decide

/-- C2 (amended): for boxes satisfying `width,height ≥ 1`, `x+width ≤ 1000`,
`y+height ≤ 1000`, the overlap correction still keeps `x+width ≤ 1000` and
`y+height ≤ 1000` for every output box (footprints only shrink), and
saturating arithmetic keeps widths/heights from going below zero — but a
width or height can be shrunk to exactly 0, so `width,height ≥ 1` is not an
invariant of the pass. -/
theorem c2_reconcile_bounds_preserved (bs : List BBox)
    (hin : ∀ b ∈ bs, 1 ≤ b.width ∧ 1 ≤ b.height ∧ b.x + b.width ≤ 1000 ∧
      b.y + b.height ≤ 1000)
    (i : Nat) (hi : i < bs.length) :
    (boxAt (reconcile bs) i).x + (boxAt (reconcile bs) i).width ≤ 1000 ∧
    (boxAt (reconcile bs) i).y + (boxAt (reconcile bs) i).height ≤ 1000 := by
  have hwf : ∀ b ∈ bs, wf32 b := by
    intro b hb
    have := hin b hb
    unfold wf32 U32
    omega
  have hsh := (reconcile_evolves (wf32_of_mem hwf) hi).2.1
  unfold shrinkLe at hsh
  have hmem : boxAt bs i ∈ bs := by
    rw [boxAt_eq_getElem hi]; exact List.getElem_mem hi
  have := hin _ hmem
  omega

/-- Witness: C2 (amended) applied to the counterexample input, where the
footprint bounds indeed survive even though `width ≥ 1` does not. -/
theorem c2_reconcile_bounds_preserved_witness :
    (boxAt (reconcile [(⟨0,0,100,100⟩ : BBox), ⟨10,0,1,100⟩]) 1).x +
        (boxAt (reconcile [(⟨0,0,100,100⟩ : BBox), ⟨10,0,1,100⟩]) 1).width ≤
      1000 ∧
    (boxAt (reconcile [(⟨0,0,100,100⟩ : BBox), ⟨10,0,1,100⟩]) 1).y +
        (boxAt (reconcile [(⟨0,0,100,100⟩ : BBox), ⟨10,0,1,100⟩]) 1).height ≤
      1000 :=
  c2_reconcile_bounds_preserved [⟨0,0,100,100⟩, ⟨10,0,1,100⟩]
    (by decide) 1 (by decide)

/-!
## The crop loop of `crop_photos` (handlers.rs:712–771)

The loop body converts each fixed box to a padded pixel rectangle with
`f64` arithmetic — `(v as f64 / 1000.0 * dim as f64) as i64` for each
coordinate and `(pw as f64 * 0.005) as i64` for the padding — and skips the
box when the resulting `pw` or `ph` is non-positive.  The double-rounded
`f64` conversion coincides with no exact integer expression (for example
`9 as f64 / 1000.0 * 3000.0` truncates to 26 while `⌊9·3000/1000⌋ = 27`),
so the embedding takes the conversion's `(pw, ph)` outcome as an opaque
parameter `dims` of the loop; the claims below are proved for every value of
that parameter, hence in particular for the program's `f64` computation on
any scan size. -/

/-- The geometry-relevant payload of a `CroppedPhoto`: its `index` field (the
box's position in the request's box list) and its `source_box`. -/
structure CropRec where
  index : Nat
  srcBox : BBox
deriving DecidableEq, Repr

/-- The box survives the `if pw <= 0 || ph <= 0 { continue; }` check
(handlers.rs:725), where `dims b` is the `(pw, ph)` the `f64` conversion
computed for `b`. -/
def validCrop (dims : BBox → Int × Int) (b : BBox) : Prop :=
  0 < (dims b).1 ∧ 0 < (dims b).2

instance (dims : BBox → Int × Int) (b : BBox) :
    Decidable (validCrop dims b) := by
  unfold validCrop; infer_instance

/-- The `for (idx, bbox) in fixed_boxes.iter().enumerate()` loop of
`crop_photos`: a box failing the dimension check is skipped (`continue`) and
produces no photo; a valid box produces a photo carrying the running index. -/
def cropLoop (dims : BBox → Int × Int) : Nat → List BBox → List CropRec
  | _, [] => []
  | idx, b :: rest =>
    if validCrop dims b then
      ⟨idx, b⟩ :: cropLoop dims (idx + 1) rest
    else
      cropLoop dims (idx + 1) rest

/-- The photo list produced by `crop_photos`: overlap reconciliation, then
the crop loop under the pixel conversion `dims`. -/
def cropPhotos (dims : BBox → Int × Int) (boxes : List BBox) :
    List CropRec :=
  cropLoop dims 0 (reconcile boxes)

theorem cropLoop_length_le (dims : BBox → Int × Int) :
    ∀ (s : Nat) (bs : List BBox), (cropLoop dims s bs).length ≤ bs.length := by
  intro s bs
  induction bs generalizing s with
  | nil => simp [cropLoop]
  | cons b rest ih =>
    unfold cropLoop
    split
    · simpa using Nat.succ_le_succ (ih (s + 1))
    · exact le_trans (ih (s + 1)) (Nat.le_succ _)

theorem cropLoop_mem (dims : BBox → Int × Int) :
    ∀ (s : Nat) (bs : List BBox) (c : CropRec), c ∈ cropLoop dims s bs →
      s ≤ c.index ∧ c.index - s < bs.length ∧
        c.srcBox = boxAt bs (c.index - s) ∧ validCrop dims c.srcBox := by
  intro s bs
  induction bs generalizing s with
  | nil => intro c hc; simp [cropLoop] at hc
  | cons b rest ih =>
    intro c hc
    unfold cropLoop at hc
    split at hc
    case isTrue hv =>
      rcases List.mem_cons.mp hc with h | h
      · subst h
        exact ⟨le_refl _, by simp, by simp [boxAt], hv⟩
      · obtain ⟨h1, h2, h3, h4⟩ := ih (s + 1) c h
        refine ⟨by omega, by simp; omega, ?_, h4⟩
        rw [h3]
        have : c.index - s = (c.index - (s + 1)) + 1 := by omega
        rw [this]
        simp [boxAt]
    case isFalse =>
      obtain ⟨h1, h2, h3, h4⟩ := ih (s + 1) c hc
      refine ⟨by omega, by simp; omega, ?_, h4⟩
      rw [h3]
      have : c.index - s = (c.index - (s + 1)) + 1 := by omega
      rw [this]
      simp [boxAt]

theorem cropLoop_mem_of_valid (dims : BBox → Int × Int) :
    ∀ (s k : Nat) (bs : List BBox), k < bs.length →
      validCrop dims (boxAt bs k) →
      (⟨s + k, boxAt bs k⟩ : CropRec) ∈ cropLoop dims s bs := by
  intro s k bs
  induction bs generalizing s k with
  | nil => intro hk; simp at hk
  | cons b rest ih =>
    intro hk hv
    unfold cropLoop
    cases k with
    | zero =>
      have hb0 : boxAt (b :: rest) 0 = b := by simp [boxAt]
      rw [hb0] at hv ⊢
      rw [if_pos hv, Nat.add_zero]
      exact List.mem_cons_self _ _
    | succ k' =>
      have hk' : k' < rest.length := by simpa using hk
      have hb : boxAt (b :: rest) (k' + 1) = boxAt rest k' := by simp [boxAt]
      rw [hb] at hv ⊢
      have hmem := ih (s + 1) k' hk' hv
      have harith : s + (k' + 1) = (s + 1) + k' := by omega
      rw [harith]
      split
      · exact List.mem_cons_of_mem _ hmem
      · exact hmem

/-- C8: in `crop_photos`, whatever `(pw, ph)` the padded normalized→pixel
`f64` conversion computes for each reconciled box, a box whose computed
width or height is non-positive produces no `CroppedPhoto` while processing
continues: the photo list can be shorter than the box list, every box
passing the check yields a photo whose `index` equals that box's position in
the input list, and no photo is emitted for a failing index.  (The `wf32`
hypothesis only restates that the fields are `u32`.) -/
theorem c8_crop_skips_degenerate_boxes (dims : BBox → Int × Int)
    (boxes : List BBox) (hwf : ∀ b ∈ boxes, wf32 b) :
    (cropPhotos dims boxes).length ≤ boxes.length ∧
    (∀ i, i < boxes.length → ¬ validCrop dims (boxAt (reconcile boxes) i) →
      ∀ c ∈ cropPhotos dims boxes, c.index ≠ i) ∧
    (∀ i, i < boxes.length → validCrop dims (boxAt (reconcile boxes) i) →
      (⟨i, boxAt (reconcile boxes) i⟩ : CropRec) ∈ cropPhotos dims boxes) := by
  have hlen := reconcile_length boxes (wf32_of_mem hwf)
  refine ⟨?_, ?_, ?_⟩
  · calc (cropPhotos dims boxes).length
        ≤ (reconcile boxes).length := cropLoop_length_le dims 0 _
      _ = boxes.length := hlen
  · intro i _ hinv c hc hci
    obtain ⟨-, -, h3, h4⟩ := cropLoop_mem dims 0 (reconcile boxes) c hc
    rw [h3, Nat.sub_zero, hci] at h4
    exact hinv h4
  · intro i hi hv
    have := cropLoop_mem_of_valid dims 0 i (reconcile boxes)
      (by omega) hv
    simpa using this

/-- Witness: C8 with the conversion outcome instantiated at a concrete
function, on a two-box request whose second box has been shrunk to zero
width by the reconciler, so its computed pixel width is 0 and it is
skipped. -/
theorem c8_crop_skips_degenerate_boxes_witness :
    (cropPhotos (fun b => ((b.width : Int), (b.height : Int)))
        [⟨0,0,100,100⟩, ⟨10,0,1,100⟩]).length ≤ 2 ∧
    (∀ c ∈ cropPhotos (fun b => ((b.width : Int), (b.height : Int)))
        [⟨0,0,100,100⟩, ⟨10,0,1,100⟩], c.index ≠ 1) ∧
    (⟨0, boxAt (reconcile [⟨0,0,100,100⟩, ⟨10,0,1,100⟩]) 0⟩ : CropRec) ∈
      cropPhotos (fun b => ((b.width : Int), (b.height : Int)))
        [⟨0,0,100,100⟩, ⟨10,0,1,100⟩] := by
  refine ⟨?_, ?_, ?_⟩
  · exact (c8_crop_skips_degenerate_boxes
      (fun b => ((b.width : Int), (b.height : Int))) _ (by decide)).1
  · exact (c8_crop_skips_degenerate_boxes
      (fun b => ((b.width : Int), (b.height : Int)))
      [⟨0,0,100,100⟩, ⟨10,0,1,100⟩] (by decide)).2.1 1 (by decide) (by decide)
  · exact (c8_crop_skips_degenerate_boxes
      (fun b => ((b.width : Int), (b.height : Int)))
      [⟨0,0,100,100⟩, ⟨10,0,1,100⟩] (by decide)).2.2 0 (by decide) (by decide)

/-!
## Rotation (`crop_photos` rotation correction, handlers.rs:732–744, and
`rotate_image`, handlers.rs:823–857)

An image is a function from in-range pixel coordinates to pixel values,
`Fin w → Fin h → α` (column, row; origin top-left).  The three quarter-turn
rotations are those of the `image` crate: `rotate90` (clockwise) maps source
pixel `(x, y)` to destination `(h−1−y, x)`, `rotate180` to `(w−1−x, h−1−y)`,
and `rotate270` (counter-clockwise) to `(y, w−1−x)`.
-/

/-- A `w × h` raster: pixel value at column `x`, row `y`. -/
def PixImg (α : Type) (w h : Nat) : Type := Fin w → Fin h → α

/-- `image::imageops::rotate90` (quarter turn clockwise):
`dst(x', y') = src(y', h−1−x')`. -/
def rotate90 {α : Type} {w h : Nat} (f : PixImg α w h) : PixImg α h w :=
  fun x y => f y ⟨h - 1 - x.val, by have := x.isLt; omega⟩

/-- `image::imageops::rotate180`: `dst(x', y') = src(w−1−x', h−1−y')`. -/
def rotate180 {α : Type} {w h : Nat} (f : PixImg α w h) : PixImg α w h :=
  fun x y => f ⟨w - 1 - x.val, by have := x.isLt; omega⟩
    ⟨h - 1 - y.val, by have := y.isLt; omega⟩

/-- `image::imageops::rotate270` (quarter turn counter-clockwise):
`dst(x', y') = src(w−1−y', x')`. -/
def rotate270 {α : Type} {w h : Nat} (f : PixImg α w h) : PixImg α h w :=
  fun x y => f ⟨w - 1 - y.val, by have := y.isLt; omega⟩ x

/-- A quarter-turn correction is one counter-clockwise turn, a half turn, one
clockwise turn, or nothing. -/
inductive Correction where
  | rot270
  | rot180
  | rot90
  | keep
deriving DecidableEq, Repr

/-- The rotation-correction bucketing of `crop_photos`
(handlers.rs:733–744): `rotation_angle` within 45 of 90 → `rotate270`,
within 45 of 180 → `rotate180`, within 45 of 270 → `rotate90`, else
identity.  The `f32` comparisons `(rotation - 90.0).abs() < 45.0` are exact
at these magnitudes and are embedded over `ℚ`. -/
def rotationCorrection (r : ℚ) : Correction :=
  if |r - 90| < 45 then .rot270
  else if |r - 180| < 45 then .rot180
  else if |r - 270| < 45 then .rot90
  else .keep

/-- Apply the correction chosen for angle `r` to a buffer (the
`let rotated = if … cropped.rotate270() …` chain); the output dimensions
depend on the branch, hence the sigma type. -/
def correctRotation {α : Type} {w h : Nat} (r : ℚ) (f : PixImg α w h) :
    Σ w' h', PixImg α w' h' :=
  match rotationCorrection r with
  | .rot270 => ⟨h, w, rotate270 f⟩
  | .rot180 => ⟨w, h, rotate180 f⟩
  | .rot90 => ⟨h, w, rotate90 f⟩
  | .keep => ⟨w, h, f⟩

theorem rotate270_rotate90 {α : Type} {w h : Nat} (f : PixImg α w h) :
    rotate270 (rotate90 f) = f := by
  funext x y
  unfold rotate270 rotate90
  have hx := x.isLt
  have hy := y.isLt
  congr 1
  exact Fin.ext (by simp; omega)

/-- C3: the corrective transform of `crop_photos` is the inverse of the
detected clockwise rotation: an angle within 45° of 90 triggers `rotate270`,
within 45° of 180 triggers `rotate180`, within 45° of 270 triggers
`rotate90`, anything else (including 0) is the identity; consequently
rotating any image 90° clockwise and then correcting with
`rotation_angle = 90` reproduces the original image exactly, and
`rotation_angle = 0` leaves the buffer unchanged. -/
theorem c3_rotation_correction_inverse {α : Type} {w h : Nat} (r : ℚ)
    (f : PixImg α w h) :
    (|r - 90| < 45 → rotationCorrection r = .rot270) ∧
    (|r - 180| < 45 → rotationCorrection r = .rot180) ∧
    (|r - 270| < 45 → rotationCorrection r = .rot90) ∧
    (¬ |r - 90| < 45 → ¬ |r - 180| < 45 → ¬ |r - 270| < 45 →
      rotationCorrection r = .keep) ∧
    correctRotation 90 (rotate90 f) = ⟨w, h, f⟩ ∧
    correctRotation 0 f = ⟨w, h, f⟩ := by
  have hb90 : rotationCorrection 90 = .rot270 := by
    unfold rotationCorrection
    norm_num
  have hb0 : rotationCorrection 0 = .keep := by
    unfold rotationCorrection
    rw [if_neg (by rw [abs_lt]; norm_num), if_neg (by rw [abs_lt]; norm_num),
      if_neg (by rw [abs_lt]; norm_num)]
  refine ⟨?_, ?_, ?_, ?_, ?_, ?_⟩
  · intro h1
    unfold rotationCorrection
    rw [if_pos h1]
  · intro h2
    have h1 : ¬ |r - 90| < 45 := by
      rw [abs_lt] at h2 ⊢
      intro hc
      obtain ⟨a1, a2⟩ := h2
      obtain ⟨b1, b2⟩ := hc
      linarith
    unfold rotationCorrection
    rw [if_neg h1, if_pos h2]
  · intro h3
    have h1 : ¬ |r - 90| < 45 := by
      rw [abs_lt] at h3 ⊢
      intro hc
      obtain ⟨a1, a2⟩ := h3
      obtain ⟨b1, b2⟩ := hc
      linarith
    have h2 : ¬ |r - 180| < 45 := by
      rw [abs_lt] at h3 ⊢
      intro hc
      obtain ⟨a1, a2⟩ := h3
      obtain ⟨b1, b2⟩ := hc
      linarith
    unfold rotationCorrection
    rw [if_neg h1, if_neg h2, if_pos h3]
  · intro h1 h2 h3
    unfold rotationCorrection
    rw [if_neg h1, if_neg h2, if_neg h3]
  · unfold correctRotation
    rw [hb90]
    simp only []
    rw [rotate270_rotate90]
  · unfold correctRotation
    rw [hb0]

/-- Witness: C3 at angle 100 (within 45° of 90) on a concrete 1×1 image. -/
theorem c3_rotation_correction_inverse_witness :
    rotationCorrection 100 = .rot270 ∧
    correctRotation 90 (rotate90 (fun _ _ => (7 : Nat) : PixImg Nat 1 1)) =
      ⟨1, 1, (fun _ _ => (7 : Nat))⟩ :=
  ⟨(c3_rotation_correction_inverse 100
      (fun _ _ => (7 : Nat) : PixImg Nat 1 1)).1 (by rw [abs_lt]; norm_num),
    (c3_rotation_correction_inverse 100
      (fun _ _ => (7 : Nat) : PixImg Nat 1 1)).2.2.2.2.1⟩

/-- Rust `%` on `i32` is remainder truncated toward zero, i.e. `Int.tmod`;
`((degrees % 360) + 360) % 360` from `rotate_image` (handlers.rs:837,
commands.rs:542). -/
def normalizeDeg (d : Int) : Int := (d.tmod 360 + 360).tmod 360

/-- The `match normalized { 90 => rotate90, 180 => rotate180,
270 => rotate270, _ => identity }` dispatch of `rotate_image`
(handlers.rs:838–843). -/
def rotateImageChoice (d : Int) : Correction :=
  if normalizeDeg d = 90 then .rot90
  else if normalizeDeg d = 180 then .rot180
  else if normalizeDeg d = 270 then .rot270
  else .keep

/-- Modelled from the spec: §6 claims the normalized degree value is
"snapped to the nearest of {0,90,180,270}".  Boundary ties and values above
315 are snapped downward / to 0; only the value at 89 matters for the
comparison below. -/
def specNearestSnap (n : Int) : Correction :=
  if n ≤ 45 then .keep
  else if n ≤ 135 then .rot90
  else if n ≤ 225 then .rot180
  else if n ≤ 315 then .rot270
  else .keep

theorem tmod_neg_dividend (a b : Int) : (-a).tmod b = -(a.tmod b) := by
  rw [Int.tmod_def, Int.tmod_def, Int.neg_tdiv]
  ring

theorem normalizeDeg_eq_emod (d : Int) : normalizeDeg d = d % 360 := by
  unfold normalizeDeg
  have hdef := Int.tmod_def d 360
  have hub := Int.tmod_lt_of_pos d (b := 360) (by norm_num)
  have hlb : -360 < d.tmod 360 := by
    have h2 := Int.tmod_lt_of_pos (-d) (b := 360) (by norm_num)
    rw [tmod_neg_dividend] at h2
    omega
  rw [Int.tmod_eq_emod (by omega) (by norm_num)]
  omega

/-- C6 counterexample: `rotate_image` with `degrees = 89` normalizes to 89
and applies NO rotation, while the claimed nearest-bucket snapping would
rotate by 90°: the `match` only fires on the exact values 90/180/270. -/
theorem c6_rotate_image_counterexample :
    normalizeDeg 89 = 89 ∧
    rotateImageChoice 89 = .keep ∧
    specNearestSnap (normalizeDeg 89) = .rot90 ∧
    Correction.keep ≠ Correction.rot90 := by
  refine ⟨by decide, by decide, by decide, by decide⟩

/-- C6 (amended): `rotate_image` normalizes `d` to `((d % 360) + 360) % 360`
(equivalently, the Euclidean remainder `d mod 360`, a value in `[0, 360)`),
and then rotates by 90/180/270 exactly when the normalized value equals
90/180/270 respectively, returning the image unchanged for every other
normalized value — there is no snapping to the nearest bucket. -/
theorem c6_rotate_image_exact_match (d : Int) :
    normalizeDeg d = d % 360 ∧
    0 ≤ normalizeDeg d ∧ normalizeDeg d < 360 ∧
    (normalizeDeg d = 90 → rotateImageChoice d = .rot90) ∧
    (normalizeDeg d = 180 → rotateImageChoice d = .rot180) ∧
    (normalizeDeg d = 270 → rotateImageChoice d = .rot270) ∧
    (normalizeDeg d ≠ 90 → normalizeDeg d ≠ 180 → normalizeDeg d ≠ 270 →
      rotateImageChoice d = .keep) := by
  have he := normalizeDeg_eq_emod d
  refine ⟨he, ?_, ?_, ?_, ?_, ?_, ?_⟩
  · rw [he]; omega
  · rw [he]; omega
  · intro h; unfold rotateImageChoice; rw [if_pos h]
  · intro h
    unfold rotateImageChoice
    rw [if_neg (by omega), if_pos h]
  · intro h
    unfold rotateImageChoice
    rw [if_neg (by omega), if_neg (by omega), if_pos h]
  · intro h1 h2 h3
    unfold rotateImageChoice
    rw [if_neg h1, if_neg h2, if_neg h3]

/-- Witness: C6 (amended) at `degrees = -270`, which normalizes to 90 and
rotates clockwise by 90°. -/
theorem c6_rotate_image_exact_match_witness :
    normalizeDeg (-270) = (-270 : Int) % 360 ∧
    rotateImageChoice (-270) = .rot90 :=
  ⟨(c6_rotate_image_exact_match (-270)).1,
    (c6_rotate_image_exact_match (-270)).2.2.2.1 (by decide)⟩

/-!
## Dark-edge trimming (`auto_trim_dark_edges`, handlers.rs:147–219,
commands.rs:18–93)

Pixels are RGB triples of 8-bit channel values; an image is its dimensions
plus a pixel function (reads outside the bounds never occur in the code
paths modelled).  `(w as f64 * 0.08) as u32` equals `⌊2·w/25⌋` for every
`u32` value `w` (the relative error of the `f64` constant `0.08` is ≈2e-17,
far below the distance from any `2w/25` to the next integer for `w < 2^32`),
and `dark_count as f64 / h as f64 >= 0.55` agrees with the exact rational
comparison `100·dark_count ≥ 55·h` for every `h < 2^32` by the same
argument. -/

/-- A raster with explicit dimensions and an RGB pixel lookup. -/
structure Img where
  width : Nat
  height : Nat
  pix : Nat → Nat → Nat × Nat × Nat

/-- `(p[0] + p[1] + p[2]) / 3` computed in `u16` (cannot overflow for 8-bit
channels). -/
def brightness (c : Nat × Nat × Nat) : Nat := (c.1 + c.2.1 + c.2.2) / 3

/-- `avg < brightness_threshold` with `brightness_threshold = 60`. -/
def isDarkPixel (img : Img) (x y : Nat) : Bool :=
  brightness (img.pix x y) < 60

/-- Number of dark pixels in column `x`. -/
def darkColCount (img : Img) (x : Nat) : Nat :=
  ((List.range img.height).filter (fun y => isDarkPixel img x y)).length

/-- Number of dark pixels in row `y`. -/
def darkRowCount (img : Img) (y : Nat) : Nat :=
  ((List.range img.width).filter (fun x => isDarkPixel img x y)).length

/-- `dark_count as f64 / h as f64 >= 0.55` (`min_dark_fraction`), exactly. -/
def colMostlyDark (img : Img) (x : Nat) : Bool :=
  55 * img.height ≤ 100 * darkColCount img x

def rowMostlyDark (img : Img) (y : Nat) : Bool :=
  55 * img.width ≤ 100 * darkRowCount img y

/-- `(n as f64 * max_trim_fraction) as u32` with `max_trim_fraction = 0.08`:
the greatest number of rows/columns a single side may lose. -/
def maxTrim (n : Nat) : Nat := n * 2 / 25

/-- Length of the run of positions `start, start+1, …` satisfying `p`,
capped at `fuel`: the `for … { if … { trim += 1 } else { break } }` scans. -/
def countRun (p : Nat → Bool) : Nat → Nat → Nat
  | _, 0 => 0
  | start, fuel + 1 => if p start then 1 + countRun p (start + 1) fuel else 0

theorem countRun_le (p : Nat → Bool) :
    ∀ (fuel start : Nat), countRun p start fuel ≤ fuel := by
  intro fuel
  induction fuel with
  | zero => intro start; simp [countRun]
  | succ n ih =>
    intro start
    unfold countRun
    split
    · have := ih (start + 1); omega
    · exact Nat.zero_le _

/-- The four edge scans of `auto_trim_dark_edges`: `left` and `top` advance
through runs of mostly-dark columns/rows from index 0; `right`/`bottom`
retreat through runs from the far edge; each run is capped at the
`max_trim` budget for its dimension. -/
structure TrimRect where
  left : Nat
  right : Nat
  top : Nat
  bottom : Nat
deriving DecidableEq, Repr

def trimBounds (img : Img) : TrimRect :=
  { left := countRun (fun x => colMostlyDark img x) 0 (maxTrim img.width)
    right := img.width -
      countRun (fun k => colMostlyDark img (img.width - 1 - k)) 0
        (maxTrim img.width)
    top := countRun (fun y => rowMostlyDark img y) 0 (maxTrim img.height)
    bottom := img.height -
      countRun (fun k => rowMostlyDark img (img.height - 1 - k)) 0
        (maxTrim img.height) }

/-- `crop_imm(l, t, nw, nh)` (always called in-bounds here). -/
def cropImg (img : Img) (l t nw nh : Nat) : Img :=
  ⟨nw, nh, fun x y => img.pix (l + x) (t + y)⟩

/-- `auto_trim_dark_edges`: images below 20×20 are returned unchanged;
otherwise the four trims are computed, the new size is clamped to at least
1×1, and the crop is applied only if it is strictly smaller. -/
def autoTrimDarkEdges (img : Img) : Img :=
  if img.width < 20 ∨ img.height < 20 then img
  else
    let tb := trimBounds img
    let nw := max (tb.right - tb.left) 1
    let nh := max (tb.bottom - tb.top) 1
    if nw < img.width ∨ nh < img.height then cropImg img tb.left tb.top nw nh
    else img

/-- C4: for an image at least 20×20, `auto_trim_dark_edges` removes at most
`⌊0.08·width⌋` columns from each of the left and right sides and at most
`⌊0.08·height⌋` rows from each of the top and bottom, and its result never
has a zero dimension; any image smaller than 20×20 on either axis is
returned unchanged. -/
theorem c4_trim_bounded (img : Img) :
    ((img.width < 20 ∨ img.height < 20) → autoTrimDarkEdges img = img) ∧
    (20 ≤ img.width → 20 ≤ img.height →
      (trimBounds img).left ≤ maxTrim img.width ∧
      img.width - (trimBounds img).right ≤ maxTrim img.width ∧
      (trimBounds img).top ≤ maxTrim img.height ∧
      img.height - (trimBounds img).bottom ≤ maxTrim img.height ∧
      1 ≤ (autoTrimDarkEdges img).width ∧
      1 ≤ (autoTrimDarkEdges img).height ∧
      (autoTrimDarkEdges img = img ∨
        autoTrimDarkEdges img = cropImg img (trimBounds img).left
          (trimBounds img).top ((trimBounds img).right - (trimBounds img).left)
          ((trimBounds img).bottom - (trimBounds img).top))) := by
  constructor
  · intro hsmall
    unfold autoTrimDarkEdges
    rw [if_pos hsmall]
  · intro hw hh
    have hnotsmall : ¬ (img.width < 20 ∨ img.height < 20) := by omega
    have hl : (trimBounds img).left ≤ maxTrim img.width := countRun_le _ _ _
    have hrrun :
        countRun (fun k => colMostlyDark img (img.width - 1 - k)) 0
          (maxTrim img.width) ≤ maxTrim img.width := countRun_le _ _ _
    have ht : (trimBounds img).top ≤ maxTrim img.height := countRun_le _ _ _
    have hbrun :
        countRun (fun k => rowMostlyDark img (img.height - 1 - k)) 0
          (maxTrim img.height) ≤ maxTrim img.height := countRun_le _ _ _
    have hmtw : maxTrim img.width ≤ img.width := by unfold maxTrim; omega
    have hmth : maxTrim img.height ≤ img.height := by unfold maxTrim; omega
    have hr : img.width - (trimBounds img).right ≤ maxTrim img.width := by
      unfold trimBounds
      dsimp only
      omega
    have hb : img.height - (trimBounds img).bottom ≤ maxTrim img.height := by
      unfold trimBounds
      dsimp only
      omega
    have hwin : (trimBounds img).left + maxTrim img.width ≤ img.width ∧
        img.width - maxTrim img.width ≤ (trimBounds img).right := by
      unfold trimBounds at *
      dsimp only at *
      unfold maxTrim at *
      omega
    have hhin : (trimBounds img).top + maxTrim img.height ≤ img.height ∧
        img.height - maxTrim img.height ≤ (trimBounds img).bottom := by
      unfold trimBounds at *
      dsimp only at *
      unfold maxTrim at *
      omega
    have hnw : max ((trimBounds img).right - (trimBounds img).left) 1 =
        (trimBounds img).right - (trimBounds img).left := by
      unfold maxTrim at *
      omega
    have hnh : max ((trimBounds img).bottom - (trimBounds img).top) 1 =
        (trimBounds img).bottom - (trimBounds img).top := by
      unfold maxTrim at *
      omega
    refine ⟨hl, hr, ht, hb, ?_, ?_, ?_⟩
    · unfold autoTrimDarkEdges
      rw [if_neg hnotsmall]
      dsimp only
      split
      · simp [cropImg]
      · omega
    · unfold autoTrimDarkEdges
      rw [if_neg hnotsmall]
      dsimp only
      split
      · simp [cropImg]
      · omega
    · unfold autoTrimDarkEdges
      rw [if_neg hnotsmall]
      dsimp only
      split
      · right
        rw [hnw, hnh]
      · left
        rfl

/-- Witness: C4 on a uniformly bright 25×25 image (left unchanged, so the
bounds are trivially visible) and on a 5×5 image (below the minimum size). -/
theorem c4_trim_bounded_witness :
    autoTrimDarkEdges ⟨5, 5, fun _ _ => (0, 0, 0)⟩ =
      (⟨5, 5, fun _ _ => (0, 0, 0)⟩ : Img) ∧
    (trimBounds ⟨25, 25, fun _ _ => (200, 200, 200)⟩).left ≤
        maxTrim (25 : Nat) ∧
    1 ≤ (autoTrimDarkEdges ⟨25, 25, fun _ _ => (200, 200, 200)⟩).width :=
  ⟨(c4_trim_bounded _).1 (by left; decide),
    ((c4_trim_bounded ⟨25, 25, fun _ _ => (200, 200, 200)⟩).2
      (by decide) (by decide)).1,
    ((c4_trim_bounded ⟨25, 25, fun _ _ => (200, 200, 200)⟩).2
      (by decide) (by decide)).2.2.2.2.1⟩

/-!
## Detector-response parsing (`parse_detection_response`, ai.rs:989–1069)

Each raw box is the numeric `x, y, width, height` payload of one
`bounding_boxes` entry after `as_u64`/`as_f64` coercion.  Rust's
`u64::clamp(self, min, max)` asserts `min ≤ max` and panics otherwise; the
panic is modelled as `Option.none`, which propagates through the whole
parse (a Rust panic aborts the surrounding request). -/

structure RawBox where
  x : Nat
  y : Nat
  width : Nat
  height : Nat
deriving DecidableEq, Repr

/-- `v.clamp(lo, hi)` on `u64`: panics (`none`) when `lo > hi`. -/
def rustClampU (v lo hi : Nat) : Option Nat :=
  if lo ≤ hi then some (min (max v lo) hi) else none

/-- One iteration of the `filter_map` body (ai.rs:1009–1012):
`x.min(1000)`, `y.min(1000)`, `width.clamp(1, 1000 - x)`,
`height.clamp(1, 1000 - y)`. -/
def parseOneBox (r : RawBox) : Option BBox := do
  let x := min r.x 1000
  let y := min r.y 1000
  let w ← rustClampU r.width 1 (1000 - x)
  let h ← rustClampU r.height 1 (1000 - y)
  pure ⟨x, y, w, h⟩

/-- Parsing the whole `bounding_boxes` array; a panic in any box aborts the
request. -/
def parseBoundingBoxes (rs : List RawBox) : Option (List BBox) :=
  rs.mapM parseOneBox

/-- C5: `parse_detection_response` is NOT total.  A detector box with
`x = 1000` (which `x.min(1000)` keeps) makes `width.clamp(1, 1000 - x)`
evaluate `clamp(1, 0)`, and `u64::clamp` panics when `min > max`; the same
happens for `y = 1000`.  For boxes with `x ≤ 999` and `y ≤ 999`, parsing
succeeds and the produced box satisfies the claimed bounds
`1 ≤ width ≤ 1000 − x` and `1 ≤ height ≤ 1000 − y`. -/
theorem c5_parse_panics_at_boundary :
    parseBoundingBoxes [⟨1000, 0, 5, 5⟩] = none ∧
    parseBoundingBoxes [⟨0, 1000, 5, 5⟩] = none ∧
    parseBoundingBoxes [⟨999, 999, 5, 5⟩] =
      some [⟨999, 999, 1, 1⟩] ∧
    (∀ r ∈ [(⟨999, 999, 5, 5⟩ : RawBox), ⟨40, 20, 2000, 0⟩],
      ∀ b ∈ (parseOneBox r).toList,
        b.x ≤ 1000 ∧ b.y ≤ 1000 ∧
        1 ≤ b.width ∧ b.width ≤ 1000 - b.x ∧
        1 ≤ b.height ∧ b.height ≤ 1000 - b.y) := by
  refine ⟨by decide, by decide, by decide, by decide⟩

/-!
## The local filter chain (`apply_local_filters`, handlers.rs:935–957)

The fold dispatches on the filter name; the four pixel transforms
(`apply_clahe`, `apply_unsharp_mask`, `apply_bilateral_approx`,
`apply_gaussian_denoise`) are taken as parameters of the embedding — the
claims below hold for every implementation of them, in particular the real
one. -/

/-- The four filter implementations the dispatch can invoke, over an
arbitrary buffer type. -/
structure FilterOps (α : Type) where
  clahe : α → α
  unsharp : ℚ → α → α
  bilateral : α → α
  gaussian : ℚ → α → α

/-- One step of the fold (handlers.rs:943–956): the `match` on the filter
name, with the unknown-name arm returning the buffer unchanged. -/
def applyFilterStep {α : Type} (F : FilterOps α) (cur : α)
    (name : String) : α :=
  match name with
  | "clahe" => F.clahe cur
  | "sharpen" => F.unsharp 1 cur
  | "sharpen_mild" => F.unsharp (1/2) cur
  | "sharpen_strong" => F.unsharp 2 cur
  | "bilateral" => F.bilateral cur
  | "denoise" => F.gaussian (3/2) cur
  | "denoise_mild" => F.gaussian (4/5) cur
  | "denoise_strong" => F.gaussian 3 cur
  | _ => cur

/-- The filter fold: `for filter_name in &active_filters { current = … }`. -/
def applyLocalFilters {α : Type} (F : FilterOps α) (filters : List String)
    (img : α) : α :=
  filters.foldl (applyFilterStep F) img

/-- The recognized filter names (the non-default `match` arms). -/
def knownFilterNames : List String :=
  ["clahe", "sharpen", "sharpen_mild", "sharpen_strong", "bilateral",
    "denoise", "denoise_mild", "denoise_strong"]

theorem applyFilterStep_unknown {α : Type} (F : FilterOps α) (cur : α)
    {name : String} (h : name ∉ knownFilterNames) :
    applyFilterStep F cur name = cur := by
  unfold applyFilterStep
  split
  all_goals first
    | rfl
    | (exfalso; exact h (by decide))

theorem applyLocalFilters_all_unknown {α : Type} (F : FilterOps α) :
    ∀ (names : List String), (∀ n ∈ names, n ∉ knownFilterNames) →
      ∀ img : α, applyLocalFilters F names img = img := by
  intro names
  induction names with
  | nil => intro _ img; rfl
  | cons n rest ih =>
    intro hall img
    have hn := hall n (List.mem_cons_self _ _)
    unfold applyLocalFilters at *
    rw [List.foldl_cons, applyFilterStep_unknown F img hn]
    exact ih (fun m hm => hall m (List.mem_cons_of_mem _ hm)) img

/-- C7: the filter fold leaves the buffer unchanged for every filter list
whose names all lie outside the recognized set, and inserting an
unrecognized name anywhere in any filter list has no effect at all on the
result (it is skipped, never an error). -/
theorem c7_unknown_filters_are_noops {α : Type} (F : FilterOps α)
    (img : α) (names : List String)
    (hall : ∀ n ∈ names, n ∉ knownFilterNames) :
    applyLocalFilters F names img = img ∧
    ∀ (pre post : List String) (u : String), u ∉ knownFilterNames →
      applyLocalFilters F (pre ++ u :: post) img =
        applyLocalFilters F (pre ++ post) img := by
  constructor
  · exact applyLocalFilters_all_unknown F names hall img
  · intro pre post u hu
    unfold applyLocalFilters
    rw [List.foldl_append, List.foldl_append, List.foldl_cons,
      applyFilterStep_unknown F _ hu]

/-- Witness: C7 with the single filter name `"nonexistent_filter"` on a
concrete buffer. -/
theorem c7_unknown_filters_are_noops_witness :
    applyLocalFilters ⟨id, fun _ => id, id, fun _ => id⟩
        ["nonexistent_filter"] (37 : Nat) = 37 ∧
    applyLocalFilters (α := Nat) ⟨id, fun _ => id, id, fun _ => id⟩
        (["clahe"] ++ "nonexistent_filter" :: ["sharpen"]) 37 =
      applyLocalFilters ⟨id, fun _ => id, id, fun _ => id⟩
        (["clahe"] ++ ["sharpen"]) 37 :=
  ⟨(c7_unknown_filters_are_noops ⟨id, fun _ => id, id, fun _ => id⟩ 37
      ["nonexistent_filter"] (by decide)).1,
    (c7_unknown_filters_are_noops ⟨id, fun _ => id, id, fun _ => id⟩ 37 []
      (by decide)).2 ["clahe"] ["sharpen"] "nonexistent_filter" (by decide)⟩

/-!
## Outpainting early return (`outpaint_photo`, handlers.rs:792–821,
commands.rs:1187–1221)
-/

/-- `models::Point2D` (normalized `f32` coordinates; their values are
irrelevant to the early return). -/
structure Pt where
  x : ℚ
  y : ℚ
deriving DecidableEq

/-- The fields of `OutpaintRequest` (handlers.rs:74–81). -/
structure OutpaintReq where
  croppedBase64 : String
  mimeType : String
  contour : List Pt
  bboxWidth : Nat
  bboxHeight : Nat

/-- `outpaint_photo`: if the contour has fewer than 3 points the original
cropped image is returned as-is, before any key lookup or provider call;
everything after the check (key lookup, the provider round-trip, and their
failures) is the `ext` parameter. -/
def outpaintPhoto (ext : OutpaintReq → Except String String)
    (req : OutpaintReq) : Except String String :=
  if req.contour.length < 3 then .ok req.croppedBase64
  else ext req

/-- C9: for every request whose contour has fewer than 3 points,
`outpaint_photo` returns the input cropped image unchanged, whatever the
other request fields are and whatever the external provider (or the API-key
lookup) would have done. -/
theorem c9_short_contour_returned_unchanged
    (ext : OutpaintReq → Except String String) (req : OutpaintReq)
    (h : req.contour.length < 3) :
    outpaintPhoto ext req = .ok req.croppedBase64 := by
  unfold outpaintPhoto
  rw [if_pos h]

/-- Witness: C9 on a two-point contour with a provider that would fail. -/
theorem c9_short_contour_returned_unchanged_witness :
    outpaintPhoto (fun _ => .error "provider unreachable")
        ⟨"imgdata", "image/png", [⟨0, 0⟩, ⟨1000, 0⟩], 10, 10⟩ =
      .ok "imgdata" :=
  c9_short_contour_returned_unchanged _ _ (by decide)

end Tissaia
